import Mathlib

/-!
Verification development for the joshpy client library.

The Python source is shallowly embedded: Python `str` values are modelled as
`List Char`, Python dictionaries as insertion-ordered association lists,
Python `float` arithmetic as exact arithmetic over `ℚ` (for the wire-value
parsers) and `ℝ` (for the geodesy functions), and raised exceptions as
`Except`/`Option` results.  Stateful code (`ResponseReader`) is modelled by
explicit state passing.
-/

/-! ## Python string primitives

These model the exact semantics of the Python `str` methods used by
`joshpy/parse.py`: `strip`, `split(sep)`, `split(sep, 1)`, and the `in`
substring test.
-/

/-- Whitespace characters removed by Python `str.strip()`. -/
def isPyWhite (c : Char) : Bool :=
  c.toNat = 32 || c.toNat = 9 || c.toNat = 10 || c.toNat = 13 || c.toNat = 11 || c.toNat = 12

/-- Python `str.strip()`: drop whitespace from both ends. -/
def pyStrip (l : List Char) : List Char :=
  ((l.dropWhile isPyWhite).reverse.dropWhile isPyWhite).reverse

/-- Python `str.split(sep)` for a one-character separator: splits on every
occurrence, keeping empty fragments; `"".split(sep) == ['']`. -/
def pySplitCh (sep : Char) : List Char → List (List Char)
  | [] => [[]]
  | c :: rest =>
    let r := pySplitCh sep rest
    if c = sep then [] :: r
    else
      match r with
      | [] => [[c]]
      | x :: xs => (c :: x) :: xs

/-- Python `str.split(sep, 1)`: split at the first occurrence of `sep` only. -/
def pySplit1 (sep : Char) : List Char → List (List Char)
  | [] => [[]]
  | c :: rest =>
    if c = sep then [[], rest]
    else
      match pySplit1 sep rest with
      | [] => [[c]]
      | x :: xs => (c :: x) :: xs

/-- Does `hay` start with `needle`? -/
def startsWithList : List Char → List Char → Bool
  | [], _ => true
  | _ :: _, [] => false
  | a :: as, b :: bs => a = b && startsWithList as bs

/-- Python substring containment `needle in hay`. -/
def pyContains (needle : List Char) : List Char → Bool
  | [] => needle.isEmpty
  | c :: rest => startsWithList needle (c :: rest) || pyContains needle rest

/-! ## Python `float()` literal parsing

`parse.py` converts numeric tokens with the builtin `float`.  We model the
(sign, digits, optional fraction) decimal literals that the engine wire format
uses; the numeric value is represented exactly in `ℚ`.  All digit scanning is
done over `ℕ` (kernel-reducible); `decToRat` packages the result as a
rational. -/

/-- Is `c` an ASCII digit? -/
def isDigitCh (c : Char) : Bool := 48 ≤ c.toNat && c.toNat ≤ 57

/-- Numeric value of a digit string (most significant first). -/
def digitsToNat (l : List Char) : ℕ :=
  l.foldl (fun n c => 10 * n + (c.toNat - 48)) 0

/-- Scan a decimal literal: returns (negative?, integer part, fraction part,
number of fraction digits), or `none` if the token is not a valid literal. -/
def pyFloatParts (l0 : List Char) : Option (Bool × ℕ × ℕ × ℕ) :=
  let l := pyStrip l0
  let (neg, mag) : Bool × List Char :=
    match l with
    | '-' :: r => (true, r)
    | '+' :: r => (false, r)
    | _ => (false, l)
  let intP := mag.takeWhile isDigitCh
  let rest := mag.dropWhile isDigitCh
  match rest with
  | [] => if intP.isEmpty then none else some (neg, digitsToNat intP, 0, 0)
  | '.' :: frac =>
    if frac.all isDigitCh && !(intP.isEmpty && frac.isEmpty) then
      some (neg, digitsToNat intP, digitsToNat frac, frac.length)
    else none
  | _ => none

/-- The rational value of a scanned decimal literal. -/
def decToRat (neg : Bool) (ip fp fl : ℕ) : ℚ :=
  (if neg then -1 else 1) * ((ip : ℚ) + (fp : ℚ) / 10 ^ fl)

/-- Model of the Python builtin `float(token)` on the decimal literals used by
the engine wire format: `none` models the `ValueError` raised on an invalid
literal. -/
def pyFloat (l : List Char) : Option ℚ :=
  match pyFloatParts l with
  | none => none
  | some (neg, ip, fp, fl) => some (decToRat neg ip fp fl)

/-! ## `joshpy/parse.py`: wire-value parsers -/

/-- The spec's FormatError: a malformed engine value, coordinate pair, or wire
line (Python raises `ValueError`). -/
inductive FormatError where
  | mk
deriving DecidableEq

/-- `EngineValue` from `parse.py`: a numeric magnitude with a unit string. -/
structure EngineValue where
  value : ℚ
  units : List Char
deriving DecidableEq

/-- `StartEndString` from `parse.py`: a parsed coordinate pair. -/
structure StartEndString where
  longitude : EngineValue
  latitude : EngineValue
deriving DecidableEq

/-- `parse_engine_value_string` from `parse.py`: strip, split on the first
space, convert the first token with `float`. -/
def parse_engine_value_string (target : List Char) : Except FormatError EngineValue :=
  let parts := pySplit1 ' ' (pyStrip target)
  match parts with
  | [a, b] =>
    match pyFloat a with
    | none => .error .mk
    | some v => .ok ⟨v, b⟩
  | _ => .error .mk

/-- `parse_start_end_string` from `parse.py`: split on commas into exactly two
parts, tokenize each on single spaces into at least three tokens, decide the
latitude/longitude assignment by whether the third token of the first part
contains the substring "latitude". -/
def parse_start_end_string (target : List Char) : Except FormatError StartEndString :=
  let parts := pySplitCh ',' (pyStrip target)
  match parts with
  | [p1, p2] =>
    let first_parts := pySplitCh ' ' (pyStrip p1)
    let second_parts := pySplitCh ' ' (pyStrip p2)
    match first_parts, second_parts with
    | f0 :: f1 :: f2 :: _, s0 :: s1 :: _ :: _ =>
      let first_is_latitude := pyContains "latitude".toList f2
      if first_is_latitude then
        match pyFloat f0, pyFloat s0 with
        | some v1, some v2 => .ok ⟨⟨v2, s1⟩, ⟨v1, f1⟩⟩
        | _, _ => .error .mk
      else
        match pyFloat f0, pyFloat s0 with
        | some v1, some v2 => .ok ⟨⟨v1, f1⟩, ⟨v2, s1⟩⟩
        | _, _ => .error .mk
    | _, _ => .error .mk
  | _ => .error .mk

/-! ## `joshpy/parse.py`: `ResponseReader`

`parse_engine_response` is an external collaborator (the spec treats it as an
opaque line parser `line -> {type, replicate, datum?}`); the model takes it as
a parameter `per`, returning `none` for a malformed line (Python raises).
`SimulationResultBuilder` is likewise external: per the spec it accumulates
`OutputDatum` entries in arrival order; it is modelled as the list of data
accumulated so far, `build()` freezing that list into the completed result.
The observer callback is modelled as a log (`notes`) of the counts it was
invoked with.  Python dictionaries preserve insertion order, so the replicate
registry is an insertion-ordered association list. -/

/-- `OutputDatum` from the spec: one observation, a target identifier plus an
attribute mapping. -/
structure OutputDatum where
  target : List Char
  attributes : List (List Char × List Char)
deriving DecidableEq

/-- Classification of one wire line by `parse_engine_response`: a datum record
or an end-of-replicate record. -/
inductive Intermediate where
  | datum (replicate : List Char) (d : OutputDatum)
  | endRep (replicate : List Char)
deriving DecidableEq

/-- Errors raised inside `process_response`: a malformed line
(`FormatError`, Python `ValueError`) or an end line for a replicate with no
open builder (`ProtocolViolation`, Python `KeyError`). -/
inductive ReaderErr where
  | formatError
  | protocolViolation
deriving DecidableEq

/-- First-match lookup in an insertion-ordered association list
(Python `d[k]` / `k in d`). -/
def lookupRep {α : Type} (r : List Char) : List (List Char × α) → Option α
  | [] => none
  | (k, v) :: rest => if k = r then some v else lookupRep r rest

/-- Update the first matching entry in place (Python mutating `d[k]`). -/
def updateRep {α : Type} (r : List Char) (f : α → α) :
    List (List Char × α) → List (List Char × α)
  | [] => []
  | (k, v) :: rest => if k = r then (k, f v) :: rest else (k, v) :: updateRep r f rest

/-- The mutable state of a `ResponseReader` instance: the replicate registry
(`_replicate_reducer`), the completed results (`_complete_replicates`), the
carry-over buffer (`_buffer`), the completed count
(`_completed_replicates`), and the log of observer notifications. -/
structure ResponseReader where
  reducer : List (List Char × List OutputDatum)
  complete : List (List OutputDatum)
  buffer : List Char
  completedReplicates : ℕ
  notes : List ℕ
deriving DecidableEq

/-- A freshly constructed `ResponseReader`. -/
def ResponseReader.init : ResponseReader := ⟨[], [], [], 0, []⟩

/-- One iteration of the line loop in `process_response`: strip the line, skip
it if blank, classify it, and either append the datum to the replicate's
builder (creating the builder if absent) or finalize the replicate.  On an end
line the completed count is incremented before the builder lookup; a missing
builder then raises (`ProtocolViolation`) leaving the rest of the state
untouched. -/
def processLine (per : List Char → Option Intermediate) (st : ResponseReader)
    (line : List Char) : ResponseReader × Option ReaderErr :=
  let s := pyStrip line
  if s.isEmpty then (st, none)
  else
    match per s with
    | none => (st, some .formatError)
    | some (.datum rep d) =>
      let reducer1 :=
        if (lookupRep rep st.reducer).isSome then st.reducer else st.reducer ++ [(rep, [])]
      ({ st with reducer := updateRep rep (fun ds => ds ++ [d]) reducer1 }, none)
    | some (.endRep rep) =>
      let count := st.completedReplicates + 1
      match lookupRep rep st.reducer with
      | none => ({ st with completedReplicates := count }, some .protocolViolation)
      | some ds =>
        ({ st with
            completedReplicates := count
            complete := st.complete ++ [ds]
            notes := st.notes ++ [count] }, none)

/-- The line loop of `process_response`: process lines in order; a raised
error aborts the loop, dropping the remaining lines of this call. -/
def processLines (per : List Char → Option Intermediate) (st : ResponseReader) :
    List (List Char) → ResponseReader × Option ReaderErr
  | [] => (st, none)
  | l :: rest =>
    match processLine per st l with
    | (st', none) => processLines per st' rest
    | (st', some e) => (st', some e)

/-- Python `buffer.split("\n")` followed by `lines.pop()`, fused: returns the
complete lines and the trailing unterminated segment. -/
def splitBuf : List Char → List (List Char) × List Char
  | [] => ([], [])
  | c :: rest =>
    let r := splitBuf rest
    if c = '\n' then ([] :: r.1, r.2)
    else
      match r.1 with
      | [] => ([], c :: r.2)
      | x :: xs => ((c :: x) :: xs, r.2)

/-- `ResponseReader.process_response` from `parse.py`: append the chunk to the
buffer, split on newlines, keep the trailing segment as the new buffer, and
run the line loop over the complete lines. -/
def ResponseReader.process_response (per : List Char → Option Intermediate)
    (st : ResponseReader) (text : List Char) : ResponseReader × Option ReaderErr :=
  let (ls, t) := splitBuf (st.buffer ++ text)
  processLines per { st with buffer := t } ls

/-- Feeding a sequence of chunks through `process_response` in order,
stopping at the first raised error. -/
def processChunks (per : List Char → Option Intermediate) (st : ResponseReader) :
    List (List Char) → ResponseReader × Option ReaderErr
  | [] => (st, none)
  | c :: cs =>
    match ResponseReader.process_response per st c with
    | (st', none) => processChunks per st' cs
    | (st', some e) => (st', some e)

/-- Classification of the lines of a stream restricted to one replicate id
`r`: the datum payloads for `r` (left) and the end markers for `r` (right),
in arrival order, ignoring blank and malformed lines and other replicates. -/
def eventsFor (per : List Char → Option Intermediate) (r : List Char)
    (lines : List (List Char)) : List (OutputDatum ⊕ Unit) :=
  lines.filterMap (fun l =>
    let s := pyStrip l
    if s.isEmpty then none
    else
      match per s with
      | some (.datum r' d) => if r' = r then some (Sum.inl d) else none
      | some (.endRep r') => if r' = r then some (Sum.inr ()) else none
      | none => none)

/-! ## `joshpy/geocode.py`

`get_distance_meters` is translated from the source (Haversine on a sphere of
radius 6 371 000 m, with `math.atan2` modelled over the reals).
`get_at_distance_from` raises `NotImplementedError` in the source, so it is
modelled from the spec (see its doc comment).  Python float arithmetic is
modelled by exact real arithmetic. -/

/-- `EARTH_RADIUS_METERS` from `geocode.py`. -/
noncomputable def EARTH_RADIUS_METERS : ℝ := 6371000

/-- Python `math.radians`. -/
noncomputable def radians (x : ℝ) : ℝ := x * (Real.pi / 180)

/-- Python `math.degrees`. -/
noncomputable def degrees (x : ℝ) : ℝ := x * (180 / Real.pi)

/-- Python `math.atan2` over the reals (signed zeros ignored; only the
`x ≥ 0, y ≥ 0` quadrant is exercised by the Haversine formula). -/
noncomputable def atan2 (y x : ℝ) : ℝ :=
  if 0 < x then Real.arctan (y / x)
  else if x < 0 then
    (if 0 ≤ y then Real.arctan (y / x) + Real.pi else Real.arctan (y / x) - Real.pi)
  else if 0 < y then Real.pi / 2
  else if y < 0 then -(Real.pi / 2)
  else 0

/-- `EarthPoint` from `geocode.py`: a longitude/latitude pair in degrees. -/
structure EarthPoint where
  longitude : ℝ
  latitude : ℝ

/-- `get_distance_meters` from `geocode.py`: the Haversine great-circle
distance. -/
noncomputable def get_distance_meters (start finish : EarthPoint) : ℝ :=
  let angle_lat_start := radians start.latitude
  let angle_lat_end := radians finish.latitude
  let delta_lat := radians (finish.latitude - start.latitude)
  let delta_long := radians (finish.longitude - start.longitude)
  let a := Real.sin (delta_lat / 2) * Real.sin (delta_lat / 2)
    + Real.cos angle_lat_start * Real.cos angle_lat_end
      * Real.sin (delta_long / 2) * Real.sin (delta_long / 2)
  let c := 2 * atan2 (Real.sqrt a) (Real.sqrt (1 - a))
  EARTH_RADIUS_METERS * c

/-- The spec's InvalidArgument error: an unsupported direction token. -/
inductive GeoErr where
  | invalidArgument
deriving DecidableEq

/-- Modelled from the spec: `get_at_distance_from` in `geocode.py` raises
`NotImplementedError` in the source, so its body is missing from the
repository; the spec prescribes it.  North/South change latitude only, by
`distance / earth_radius` radians converted to degrees (added for N,
subtracted for S); East/West change longitude only, additionally scaled by
`1 / cos(latitude_in_radians)`; any other direction token is an
InvalidArgument error. -/
noncomputable def get_at_distance_from (start : EarthPoint) (distance_meters : ℝ)
    (direction : String) : Except GeoErr EarthPoint :=
  if direction = "N" then
    .ok ⟨start.longitude, start.latitude + degrees (distance_meters / EARTH_RADIUS_METERS)⟩
  else if direction = "S" then
    .ok ⟨start.longitude, start.latitude - degrees (distance_meters / EARTH_RADIUS_METERS)⟩
  else if direction = "E" then
    .ok ⟨start.longitude + degrees (distance_meters / EARTH_RADIUS_METERS) /
        Real.cos (radians start.latitude), start.latitude⟩
  else if direction = "W" then
    .ok ⟨start.longitude - degrees (distance_meters / EARTH_RADIUS_METERS) /
        Real.cos (radians start.latitude), start.latitude⟩
  else .error .invalidArgument

/-! ## `add_positions` from `joshpy/geocode.py`

The `joshpy.definitions` and `joshpy.metadata` modules are not in the
repository, so the shapes they declare are modelled from the spec: a result
set is replicates, each a list of timesteps, each a list of entities; an
entity may carry a `position` mapping (string keys to numeric values) plus
other attributes that geocoding never touches. -/

/-- Modelled from the spec: the slice of `joshpy.metadata.SimulationMetadata`
(module missing from the repository) that `add_positions` reads — the
grid's top-left corner in degrees and the patch size in meters. -/
structure SimulationMetadata where
  topLeftLongitude : ℝ
  topLeftLatitude : ℝ
  widthMeters : ℝ

/-- Modelled from the spec: one entity dictionary from
`joshpy.definitions.SimulationResults` (module missing from the repository):
an optional `position` mapping plus other attributes. -/
structure GridEntity where
  position : Option (List (List Char × ℝ))
  attrs : List (List Char × List Char)

/-- One timestep of a replicate: its entity list. -/
structure SimTimestep where
  entities : List GridEntity

/-- One replicate of a result set: its timestep list. -/
structure SimReplicate where
  timesteps : List SimTimestep

/-- Modelled from the spec: `joshpy.definitions.SimulationResults` (module
missing from the repository). -/
structure SimulationResults where
  replicates : List SimReplicate

/-- Python dictionary assignment `d[k] = v`: replace the first matching
entry in place, else append. -/
def dictSet {α : Type} (k : List Char) (v : α) :
    List (List Char × α) → List (List Char × α)
  | [] => [(k, v)]
  | (k', w) :: rest => if k' = k then (k', v) :: rest else (k', w) :: dictSet k v rest

/-- The dictionary key `'x'`. -/
def keyX : List Char := "x".toList

/-- The dictionary key `'y'`. -/
def keyY : List Char := "y".toList

/-- The dictionary key `'longitude'`. -/
def keyLongitude : List Char := "longitude".toList

/-- The dictionary key `'latitude'`. -/
def keyLatitude : List Char := "latitude".toList

/-- The per-entity body of the loop in `add_positions`: if the entity has a
`position` mapping with both `x` and `y`, move east by `x * width` from the
grid's top-left corner, then south by `y * width`, and write `longitude`
then `latitude` back into the mapping; otherwise leave the entity alone.
(The two `get_at_distance_from` calls use the literal directions `"E"` and
`"S"`, so their error branches are unreachable.) -/
noncomputable def addPositionsEntity (metadata : SimulationMetadata)
    (e : GridEntity) : GridEntity :=
  match e.position with
  | none => e
  | some pos =>
    match lookupRep keyX pos, lookupRep keyY pos with
    | some x, some y =>
      let top_left : EarthPoint := ⟨metadata.topLeftLongitude, metadata.topLeftLatitude⟩
      match get_at_distance_from top_left (x * metadata.widthMeters) "E" with
      | .error _ => e
      | .ok east_point =>
        match get_at_distance_from east_point (y * metadata.widthMeters) "S" with
        | .error _ => e
        | .ok final_point =>
          { e with position := some (dictSet keyLatitude final_point.latitude
              (dictSet keyLongitude final_point.longitude pos)) }
    | _, _ => e

/-- `add_positions` from `geocode.py`: geocode every entity of every timestep
of every replicate in place and return the mutated result set. -/
noncomputable def add_positions (results : SimulationResults)
    (metadata : SimulationMetadata) : SimulationResults :=
  { replicates := results.replicates.map (fun replicate =>
      { timesteps := replicate.timesteps.map (fun timestep =>
          { entities := timestep.entities.map (addPositionsEntity metadata) }) }) }

/-- The entity at position `(i, j, k)` of a result set (replicate, timestep,
entity index), if present. -/
def entityAt (results : SimulationResults) (i j k : ℕ) : Option GridEntity :=
  (results.replicates[i]?).bind fun replicate =>
    (replicate.timesteps[j]?).bind fun timestep =>
      timestep.entities[k]?

/-! ## Concrete instances used as witnesses -/

/-- A concrete instance of the external `parse_engine_response` collaborator:
`d<rep>` is a datum line for replicate `rep` with a fixed payload, `e<rep>`
an end line for `rep`, and anything else malformed. -/
def demoParse : List Char → Option Intermediate
  | 'd' :: rest => some (.datum rest ⟨"t".toList, []⟩)
  | 'e' :: rest => some (.endRep rest)
  | _ => none

/-- A reader state in which one end line has already failed: the completed
count (1) exceeds the number of completed results (0). -/
def demoGapState : ResponseReader := ⟨[("r1".toList, [])], [], [], 1, []⟩

/-- An entity whose `position` mapping has no `x` key. -/
noncomputable def demoEntity : GridEntity := ⟨some [(keyY, 5)], []⟩

/-- A one-replicate, one-timestep, one-entity result set. -/
noncomputable def demoResults : SimulationResults := ⟨[⟨[⟨[demoEntity]⟩]⟩]⟩

/-- A trivial grid metadata. -/
noncomputable def demoMetadata : SimulationMetadata := ⟨0, 0, 0⟩

/-! ## Helper lemmas -/

theorem splitBuf_cons (c : Char) (rest : List Char) :
    splitBuf (c :: rest) =
      if c = '\n' then ([] :: (splitBuf rest).1, (splitBuf rest).2)
      else
        match (splitBuf rest).1 with
        | [] => ([], c :: (splitBuf rest).2)
        | x :: xs => ((c :: x) :: xs, (splitBuf rest).2) := rfl

theorem splitBuf_append (xs ys : List Char) :
    splitBuf (xs ++ ys) =
      ((splitBuf xs).1 ++ (splitBuf ((splitBuf xs).2 ++ ys)).1,
       (splitBuf ((splitBuf xs).2 ++ ys)).2) := by
  induction xs with
  | nil => simp [splitBuf]
  | cons c rest ih =>
    simp only [List.cons_append]
    rw [splitBuf_cons c (rest ++ ys), splitBuf_cons c rest]
    rcases h1 : splitBuf rest with ⟨l1, t1⟩
    rw [h1] at ih
    rw [ih]
    by_cases hc : c = '\n'
    · simp [hc]
    · rcases l1 with _ | ⟨x, xs1⟩
      · rcases h2 : splitBuf (t1 ++ ys) with ⟨l2, t2⟩
        simp only [hc, if_false, h2, List.nil_append]
        rcases l2 with _ | ⟨y, ys1⟩ <;>
          simp [splitBuf_cons, hc, h2]
      · simp [hc]

theorem splitBuf_snd_fixed (l : List Char) :
    splitBuf (splitBuf l).2 = ([], (splitBuf l).2) := by
  induction l with
  | nil => simp [splitBuf]
  | cons c rest ih =>
    rw [splitBuf_cons c rest]
    by_cases hc : c = '\n'
    · simpa [hc] using ih
    · rcases h1 : (splitBuf rest).1 with _ | ⟨x, xs1⟩
      · simp only [hc, if_false, h1]
        rw [splitBuf_cons c (splitBuf rest).2]
        rcases h2 : (splitBuf (splitBuf rest).2).1 with _ | ⟨y, ys1⟩
        · simp only [hc, if_false, h2]
          have := ih
          rw [Prod.ext_iff] at this
          simp [this.2]
        · rw [ih] at h2
          simp at h2
      · simpa [hc, h1] using ih

theorem processLine_buffer (per : List Char → Option Intermediate)
    (st : ResponseReader) (line : List Char) :
    (processLine per st line).1.buffer = st.buffer := by
  simp only [processLine]
  repeat' split
  all_goals rfl

theorem processLine_setBuffer (per : List Char → Option Intermediate)
    (st : ResponseReader) (b : List Char) (line : List Char) :
    processLine per { st with buffer := b } line =
      ({ (processLine per st line).1 with buffer := b }, (processLine per st line).2) := by
  simp only [processLine]
  repeat' split
  all_goals rfl

theorem processLines_buffer (per : List Char → Option Intermediate)
    (ls : List (List Char)) (st : ResponseReader) :
    (processLines per st ls).1.buffer = st.buffer := by
  induction ls generalizing st with
  | nil => rfl
  | cons l rest ih =>
    unfold processLines
    rcases h : processLine per st l with ⟨st', e⟩
    have hb : st'.buffer = st.buffer := by
      have := processLine_buffer per st l
      rw [h] at this
      exact this
    rcases e with _ | e
    · simpa [hb] using ih st'
    · simpa using hb

theorem processLines_setBuffer (per : List Char → Option Intermediate)
    (ls : List (List Char)) (st : ResponseReader) (b : List Char) :
    processLines per { st with buffer := b } ls =
      ({ (processLines per st ls).1 with buffer := b }, (processLines per st ls).2) := by
  induction ls generalizing st with
  | nil => rfl
  | cons l rest ih =>
    unfold processLines
    rw [processLine_setBuffer per st b l]
    rcases h : processLine per st l with ⟨st', e⟩
    rcases e with _ | e
    · simpa using ih st'
    · simp

theorem processLines_append (per : List Char → Option Intermediate)
    (xs ys : List (List Char)) (st : ResponseReader) :
    processLines per st (xs ++ ys) =
      match processLines per st xs with
      | (st', none) => processLines per st' ys
      | (st', some e) => (st', some e) := by
  induction xs generalizing st with
  | nil => rfl
  | cons l rest ih =>
    simp only [List.cons_append, processLines]
    rcases h : processLine per st l with ⟨st', e⟩
    rcases e with _ | e
    · simpa using ih st'
    · rfl

theorem process_response_buffer (per : List Char → Option Intermediate)
    (st : ResponseReader) (text : List Char) :
    (ResponseReader.process_response per st text).1.buffer =
      (splitBuf (st.buffer ++ text)).2 := by
  unfold ResponseReader.process_response
  rw [processLines_buffer]

theorem process_response_split (per : List Char → Option Intermediate)
    (st : ResponseReader) (a b : List Char)
    (h : (ResponseReader.process_response per st (a ++ b)).2 = none) :
    (ResponseReader.process_response per st a).2 = none ∧
      ResponseReader.process_response per st (a ++ b) =
        ResponseReader.process_response per
          (ResponseReader.process_response per st a).1 b := by
  have hsplit : splitBuf (st.buffer ++ (a ++ b)) =
      ((splitBuf (st.buffer ++ a)).1 ++
         (splitBuf ((splitBuf (st.buffer ++ a)).2 ++ b)).1,
       (splitBuf ((splitBuf (st.buffer ++ a)).2 ++ b)).2) := by
    rw [← List.append_assoc]
    exact splitBuf_append (st.buffer ++ a) b
  rcases h1 : splitBuf (st.buffer ++ a) with ⟨l1, t1⟩
  rcases h2 : splitBuf (t1 ++ b) with ⟨l2, t2⟩
  rw [h1, h2] at hsplit
  simp only at hsplit
  have hx : ResponseReader.process_response per st (a ++ b) =
      processLines per { st with buffer := t2 } (l1 ++ l2) := by
    unfold ResponseReader.process_response
    rw [hsplit]
  have hXform : processLines per { st with buffer := t2 } l1 =
      ({ (processLines per st l1).1 with buffer := t2 }, (processLines per st l1).2) :=
    processLines_setBuffer per l1 st t2
  have hfirst : ResponseReader.process_response per st a =
      ({ (processLines per st l1).1 with buffer := t1 }, (processLines per st l1).2) := by
    unfold ResponseReader.process_response
    rw [h1]
    exact processLines_setBuffer per l1 st t1
  rcases he : (processLines per st l1).2 with _ | e
  · constructor
    · rw [hfirst, he]
    · rw [hx, processLines_append]
      rw [hXform, he]
      rw [hfirst]
      unfold ResponseReader.process_response
      dsimp only
      rw [h2]
  · exfalso
    rw [hx, processLines_append, hXform, he] at h
    simp at h

theorem processChunks_join (per : List Char → Option Intermediate)
    (frags : List (List Char)) (st : ResponseReader)
    (hb : splitBuf st.buffer = ([], st.buffer))
    (h : (ResponseReader.process_response per st frags.flatten).2 = none) :
    processChunks per st frags = ResponseReader.process_response per st frags.flatten := by
  induction frags generalizing st with
  | nil =>
    unfold processChunks ResponseReader.process_response
    simp only [List.flatten_nil, List.append_nil, hb]
    rfl
  | cons c cs ih =>
    have hflat : (c :: cs).flatten = c ++ cs.flatten := rfl
    rw [hflat] at h ⊢
    obtain ⟨hfst, heq⟩ := process_response_split per st c cs.flatten h
    unfold processChunks
    rcases hr : ResponseReader.process_response per st c with ⟨st', e⟩
    rcases e with _ | e
    · simp only
      rw [heq, hr]
      have hb' : splitBuf st'.buffer = ([], st'.buffer) := by
        have := process_response_buffer per st c
        rw [hr] at this
        simp only at this
        rw [this]
        exact splitBuf_snd_fixed (st.buffer ++ c)
      have h' : (ResponseReader.process_response per st' cs.flatten).2 = none := by
        rw [heq, hr] at h
        exact h
      exact ih st' hb' h'
    · exfalso
      rw [hr] at hfst
      simp at hfst

theorem processLine_blank (per : List Char → Option Intermediate)
    (st : ResponseReader) (line : List Char) (hs : (pyStrip line).isEmpty = true) :
    processLine per st line = (st, none) := by
  simp only [processLine, hs, if_true]

theorem processLine_malformed (per : List Char → Option Intermediate)
    (st : ResponseReader) (line : List Char) (hs : (pyStrip line).isEmpty = false)
    (hper : per (pyStrip line) = none) :
    processLine per st line = (st, some .formatError) := by
  simp only [processLine, hs, Bool.false_eq_true, if_false, hper]

theorem processLine_datum (per : List Char → Option Intermediate)
    (st : ResponseReader) (line : List Char) (rep : List Char) (d : OutputDatum)
    (hs : (pyStrip line).isEmpty = false)
    (hper : per (pyStrip line) = some (.datum rep d)) :
    processLine per st line =
      ({ st with
          reducer := updateRep rep (fun ds => ds ++ [d])
            (if (lookupRep rep st.reducer).isSome then st.reducer
             else st.reducer ++ [(rep, [])]) }, none) := by
  simp only [processLine, hs, Bool.false_eq_true, if_false, hper]

theorem processLine_end_ok (per : List Char → Option Intermediate)
    (st : ResponseReader) (line : List Char) (rep : List Char) (ds : List OutputDatum)
    (hs : (pyStrip line).isEmpty = false)
    (hper : per (pyStrip line) = some (.endRep rep))
    (hfound : lookupRep rep st.reducer = some ds) :
    processLine per st line =
      ({ st with
          completedReplicates := st.completedReplicates + 1
          complete := st.complete ++ [ds]
          notes := st.notes ++ [st.completedReplicates + 1] }, none) := by
  simp only [processLine, hs, Bool.false_eq_true, if_false, hper, hfound]

theorem processLine_end_missing (per : List Char → Option Intermediate)
    (st : ResponseReader) (line : List Char) (rep : List Char)
    (hs : (pyStrip line).isEmpty = false)
    (hper : per (pyStrip line) = some (.endRep rep))
    (hmiss : lookupRep rep st.reducer = none) :
    processLine per st line =
      ({ st with completedReplicates := st.completedReplicates + 1 },
       some .protocolViolation) := by
  simp only [processLine, hs, Bool.false_eq_true, if_false, hper, hmiss]

theorem lookupRep_updateRep_self {α : Type} (r : List Char) (f : α → α)
    (xs : List (List Char × α)) :
    lookupRep r (updateRep r f xs) = (lookupRep r xs).map f := by
  induction xs with
  | nil => rfl
  | cons p rest ih =>
    rcases p with ⟨k, v⟩
    by_cases hk : k = r
    · simp [updateRep, lookupRep, hk]
    · simp [updateRep, lookupRep, hk, ih]

theorem lookupRep_updateRep_ne {α : Type} (r r' : List Char) (f : α → α)
    (xs : List (List Char × α)) (h : r' ≠ r) :
    lookupRep r (updateRep r' f xs) = lookupRep r xs := by
  induction xs with
  | nil => rfl
  | cons p rest ih =>
    rcases p with ⟨k, v⟩
    by_cases hk : k = r'
    · simp only [updateRep, hk, if_true, lookupRep]
      have : ¬ r' = r := h
      simp [lookupRep, this, hk]
    · simp [updateRep, lookupRep, hk, ih]

theorem lookupRep_append_self {α : Type} (r : List Char) (v : α)
    (xs : List (List Char × α)) (h : lookupRep r xs = none) :
    lookupRep r (xs ++ [(r, v)]) = some v := by
  induction xs with
  | nil => simp [lookupRep]
  | cons p rest ih =>
    rcases p with ⟨k, w⟩
    by_cases hk : k = r
    · simp [lookupRep, hk] at h
    · simp only [lookupRep, hk] at h
      simp [lookupRep, hk, ih h]

theorem lookupRep_append_ne {α : Type} (r r' : List Char) (v : α)
    (xs : List (List Char × α)) (h : r' ≠ r) :
    lookupRep r (xs ++ [(r', v)]) = lookupRep r xs := by
  induction xs with
  | nil => simp [lookupRep, h]
  | cons p rest ih =>
    rcases p with ⟨k, w⟩
    by_cases hk : k = r <;> simp [lookupRep, hk, ih]

theorem processLines_complete_extends (per : List Char → Option Intermediate)
    (ls : List (List Char)) : ∀ st : ResponseReader,
    ∃ ext, (processLines per st ls).1.complete = st.complete ++ ext := by
  induction ls with
  | nil => intro st; exact ⟨[], by simp [processLines]⟩
  | cons l rest ih =>
    intro st
    unfold processLines
    by_cases hs : (pyStrip l).isEmpty
    · rw [processLine_blank per st l hs]
      exact ih st
    · have hs' : (pyStrip l).isEmpty = false := by simpa using hs
      rcases hper : per (pyStrip l) with _ | i
      · rw [processLine_malformed per st l hs' hper]
        exact ⟨[], by simp⟩
      · rcases i with ⟨rep, d⟩ | rep
        · rw [processLine_datum per st l rep d hs' hper]
          rcases ih _ with ⟨ext, hext⟩
          exact ⟨ext, by simpa using hext⟩
        · rcases hlook : lookupRep rep st.reducer with _ | ds
          · rw [processLine_end_missing per st l rep hs' hper hlook]
            exact ⟨[], by simp⟩
          · rw [processLine_end_ok per st l rep ds hs' hper hlook]
            obtain ⟨ext, hext⟩ := ih { st with
              completedReplicates := st.completedReplicates + 1
              complete := st.complete ++ [ds]
              notes := st.notes ++ [st.completedReplicates + 1] }
            refine ⟨ds :: ext, ?_⟩
            dsimp only at hext ⊢
            rw [hext]
            simp

theorem processLines_run (per : List Char → Option Intermediate)
    (ls : List (List Char)) : ∀ st : ResponseReader,
    (processLines per st ls).2 = none →
    ∃ m, (processLines per st ls).1.complete.length = st.complete.length + m ∧
      (processLines per st ls).1.completedReplicates = st.completedReplicates + m ∧
      (processLines per st ls).1.notes =
        st.notes ++ (List.range m).map (fun j => st.completedReplicates + j + 1) := by
  induction ls with
  | nil => intro st _; exact ⟨0, by simp [processLines]⟩
  | cons l rest ih =>
    intro st hok
    unfold processLines at hok ⊢
    by_cases hs : (pyStrip l).isEmpty
    · rw [processLine_blank per st l hs] at hok ⊢
      exact ih st hok
    · have hs' : (pyStrip l).isEmpty = false := by simpa using hs
      rcases hper : per (pyStrip l) with _ | i
      · rw [processLine_malformed per st l hs' hper] at hok
        simp at hok
      · rcases i with ⟨rep, d⟩ | rep
        · rw [processLine_datum per st l rep d hs' hper] at hok ⊢
          rcases ih _ hok with ⟨m, h1, h2, h3⟩
          exact ⟨m, by simpa using h1, by simpa using h2, by simpa using h3⟩
        · rcases hlook : lookupRep rep st.reducer with _ | ds
          · rw [processLine_end_missing per st l rep hs' hper hlook] at hok
            simp at hok
          · rw [processLine_end_ok per st l rep ds hs' hper hlook] at hok ⊢
            dsimp only at hok ⊢
            obtain ⟨m, h1, h2, h3⟩ := ih _ hok
            dsimp only at h1 h2 h3
            refine ⟨m + 1, ?_, ?_, ?_⟩
            · rw [h1]
              simp
              omega
            · rw [h2]
              omega
            · rw [h3]
              rw [List.range_succ_eq_map, List.map_cons, List.map_map]
              have hfun : ((fun j => st.completedReplicates + j + 1) ∘ Nat.succ) =
                  (fun j => st.completedReplicates + 1 + j + 1) := by
                funext j
                simp only [Function.comp]
                omega
              rw [hfun]
              simp

theorem c3_aux (per : List Char → Option Intermediate) (r : List Char)
    (lines : List (List Char)) : ∀ (st : ResponseReader) (acc ds : List OutputDatum),
    (lookupRep r st.reducer = some acc ∨ (lookupRep r st.reducer = none ∧ acc = [])) →
    eventsFor per r lines = ds.map Sum.inl ++ [Sum.inr ()] →
    (processLines per st lines).2 = none →
    ∃ pre post,
      (processLines per st lines).1.complete = st.complete ++ pre ++ ([acc ++ ds] ++ post) := by
  induction lines with
  | nil =>
    intro st acc ds _ hev _
    exact absurd hev (by simp [eventsFor])
  | cons l rest ih =>
    intro st acc ds hacc hev hok
    unfold processLines at hok ⊢
    by_cases hs : (pyStrip l).isEmpty
    · rw [processLine_blank per st l hs] at hok ⊢
      have hsnil : pyStrip l = [] := by simpa using hs
      have hev' : eventsFor per r rest = ds.map Sum.inl ++ [Sum.inr ()] := by
        rw [← hev]
        simp [eventsFor, List.filterMap_cons, hsnil]
      exact ih st acc ds hacc hev' hok
    · have hs' : (pyStrip l).isEmpty = false := by simpa using hs
      have hne : ¬(pyStrip l = []) := by
        intro hcon
        rw [hcon] at hs'
        simp at hs'
      rcases hper : per (pyStrip l) with _ | i
      · rw [processLine_malformed per st l hs' hper] at hok
        simp at hok
      · rcases i with ⟨rep, d⟩ | rep
        · -- datum line
          by_cases hrep : rep = r
          · -- datum for r itself
            rw [hrep] at hper
            rw [processLine_datum per st l r d hs' hper] at hok ⊢
            have hev0 : eventsFor per r (l :: rest) = Sum.inl d :: eventsFor per r rest := by
              simp [eventsFor, List.filterMap_cons, hne, hper]
            rw [hev0] at hev
            rcases ds with _ | ⟨d0, ds'⟩
            · simp at hev
            · have hd0 : d0 = d ∧ eventsFor per r rest = ds'.map Sum.inl ++ [Sum.inr ()] := by
                simp only [List.map_cons, List.cons_append] at hev
                obtain ⟨h1, h2⟩ := List.cons_eq_cons.mp hev
                exact ⟨by simpa using h1.symm, h2⟩
              rcases hd0 with ⟨hd0, hev'⟩
              subst hd0
              have hlook' : lookupRep r (updateRep r (fun ds => ds ++ [d0])
                  (if (lookupRep r st.reducer).isSome then st.reducer
                   else st.reducer ++ [(r, [])])) = some (acc ++ [d0]) := by
                rcases hacc with hsome | ⟨hnone, hacce⟩
                · rw [if_pos (by simp [hsome])]
                  rw [lookupRep_updateRep_self, hsome]
                  rfl
                · subst hacce
                  rw [if_neg (by simp [hnone])]
                  rw [lookupRep_updateRep_self, lookupRep_append_self r [] st.reducer hnone]
                  rfl
              obtain ⟨pre, post, hc⟩ := ih { st with
                  reducer := updateRep r (fun ds => ds ++ [d0])
                    (if (lookupRep r st.reducer).isSome then st.reducer
                     else st.reducer ++ [(r, [])]) } (acc ++ [d0]) ds'
                (Or.inl (by dsimp only; exact hlook')) hev' hok
              refine ⟨pre, post, ?_⟩
              dsimp only at hc
              rw [hc]
              simp
          · -- datum for a different replicate
            rw [processLine_datum per st l rep d hs' hper] at hok ⊢
            have hev' : eventsFor per r rest = ds.map Sum.inl ++ [Sum.inr ()] := by
              rw [← hev]
              simp [eventsFor, List.filterMap_cons, hne, hper, hrep]
            have hlk : lookupRep r (updateRep rep (fun ds => ds ++ [d])
                (if (lookupRep rep st.reducer).isSome then st.reducer
                 else st.reducer ++ [(rep, [])])) = lookupRep r st.reducer := by
              rw [lookupRep_updateRep_ne r rep _ _ hrep]
              by_cases hp : (lookupRep rep st.reducer).isSome
              · rw [if_pos hp]
              · rw [if_neg hp]
                exact lookupRep_append_ne r rep [] st.reducer hrep
            exact ih _ acc ds (by dsimp only; rw [hlk]; exact hacc) hev' hok
        · -- end line
          by_cases hrep : rep = r
          · -- the end line for r
            rw [hrep] at hper
            have hev0 : eventsFor per r (l :: rest) = Sum.inr () :: eventsFor per r rest := by
              simp [eventsFor, List.filterMap_cons, hne, hper]
            rw [hev0] at hev
            have hds : ds = [] := by
              rcases ds with _ | ⟨d0, ds'⟩
              · rfl
              · simp at hev
            subst hds
            rcases hacc with hsome | ⟨hnone, _⟩
            · rw [processLine_end_ok per st l r acc hs' hper hsome] at hok ⊢
              obtain ⟨ext, hext⟩ := processLines_complete_extends per rest { st with
                  completedReplicates := st.completedReplicates + 1
                  complete := st.complete ++ [acc]
                  notes := st.notes ++ [st.completedReplicates + 1] }
              dsimp only at hext
              refine ⟨[], ext, ?_⟩
              rw [hext]
              simp
            · rw [processLine_end_missing per st l r hs' hper hnone] at hok
              simp at hok
          · -- end line for a different replicate
            have hev' : eventsFor per r rest = ds.map Sum.inl ++ [Sum.inr ()] := by
              rw [← hev]
              simp [eventsFor, List.filterMap_cons, hne, hper, hrep]
            rcases hlook : lookupRep rep st.reducer with _ | bs
            · rw [processLine_end_missing per st l rep hs' hper hlook] at hok
              simp at hok
            · rw [processLine_end_ok per st l rep bs hs' hper hlook] at hok ⊢
              obtain ⟨pre, post, hc⟩ := ih { st with
                  completedReplicates := st.completedReplicates + 1
                  complete := st.complete ++ [bs]
                  notes := st.notes ++ [st.completedReplicates + 1] } acc ds
                (by dsimp only; exact hacc) hev' hok
              dsimp only at hc
              rw [hc]
              exact ⟨bs :: pre, post, by simp⟩

theorem radians_degrees (x : ℝ) : radians (degrees x) = x := by
  unfold radians degrees
  field_simp

theorem radians_zero : radians 0 = 0 := by
  unfold radians
  ring

theorem atan2_sin_cos (x : ℝ) (h0 : 0 ≤ x) (h2 : x ≤ Real.pi / 2) :
    atan2 (Real.sin x) (Real.cos x) = x := by
  have hpi := Real.pi_pos
  rcases lt_or_eq_of_le h2 with hlt | heq
  · have hcos : 0 < Real.cos x := Real.cos_pos_of_mem_Ioo ⟨by linarith, hlt⟩
    unfold atan2
    rw [if_pos hcos, ← Real.tan_eq_sin_div_cos]
    exact Real.arctan_tan (by linarith) hlt
  · subst heq
    unfold atan2
    rw [Real.cos_pi_div_two, Real.sin_pi_div_two]
    norm_num

theorem dist_core (p : EarthPoint) (lat2 t : ℝ) (h0 : 0 ≤ t) (hπ : t ≤ Real.pi)
    (habs : Real.sin (radians (lat2 - p.latitude) / 2) *
        Real.sin (radians (lat2 - p.latitude) / 2) =
      Real.sin (t / 2) * Real.sin (t / 2)) :
    get_distance_meters p ⟨p.longitude, lat2⟩ = EARTH_RADIUS_METERS * t := by
  have hpi := Real.pi_pos
  have ht2a : 0 ≤ t / 2 := by linarith
  have ht2b : t / 2 ≤ Real.pi / 2 := by linarith
  have hsin : 0 ≤ Real.sin (t / 2) :=
    Real.sin_nonneg_of_nonneg_of_le_pi ht2a (by linarith)
  have hcos : 0 ≤ Real.cos (t / 2) :=
    Real.cos_nonneg_of_mem_Icc ⟨by linarith, ht2b⟩
  unfold get_distance_meters
  dsimp only
  rw [sub_self, radians_zero]
  norm_num
  rw [habs]
  have h1 : Real.sin (t / 2) * Real.sin (t / 2) = Real.sin (t / 2) ^ 2 := by ring
  have h2 : (1 : ℝ) - Real.sin (t / 2) ^ 2 = Real.cos (t / 2) ^ 2 := by
    have := Real.sin_sq_add_cos_sq (t / 2)
    linarith
  rw [h1, h2, Real.sqrt_sq hsin, Real.sqrt_sq hcos, atan2_sin_cos (t / 2) ht2a ht2b]
  exact Or.inl (by ring)

theorem radians_neg (x : ℝ) : radians (-x) = -(radians x) := by
  unfold radians
  ring

theorem atan2_zero_one : atan2 0 1 = 0 := by
  unfold atan2
  rw [if_pos one_pos]
  norm_num [Real.arctan_zero]

/-- C2, amended.  The round-trip claim as stated (every `d ≥ 0`, every
direction, tolerance `1e-4` relative) is false over the exact-real model —
see the counterexample — but the nearby statement holds: for the directions
`"N"` and `"S"`, every starting point, and every `0 ≤ d ≤ π · R`, moving `d`
meters and measuring back reproduces `d` exactly (hence within any relative
tolerance). -/
theorem c2_round_trip_north_south (start : EarthPoint) (d : ℝ) (h0 : 0 ≤ d)
    (hle : d ≤ Real.pi * EARTH_RADIUS_METERS) (dir : String)
    (hdir : dir = "N" ∨ dir = "S") (p : EarthPoint)
    (hp : get_at_distance_from start d dir = .ok p) :
    get_distance_meters start p = d := by
  have hR : (0:ℝ) < EARTH_RADIUS_METERS := by norm_num [EARTH_RADIUS_METERS]
  have ht0 : 0 ≤ d / EARTH_RADIUS_METERS := div_nonneg h0 hR.le
  have htπ : d / EARTH_RADIUS_METERS ≤ Real.pi := by
    rw [div_le_iff₀ hR]
    linarith
  have hfin : EARTH_RADIUS_METERS * (d / EARTH_RADIUS_METERS) = d := by
    field_simp
  rcases hdir with h | h
  · subst h
    unfold get_at_distance_from at hp
    rw [if_pos rfl] at hp
    have hpe : p = ⟨start.longitude, start.latitude +
        degrees (d / EARTH_RADIUS_METERS)⟩ := by
      cases hp
      rfl
    subst hpe
    have habs : Real.sin (radians (start.latitude + degrees (d / EARTH_RADIUS_METERS) -
          start.latitude) / 2) *
        Real.sin (radians (start.latitude + degrees (d / EARTH_RADIUS_METERS) -
          start.latitude) / 2) =
        Real.sin (d / EARTH_RADIUS_METERS / 2) * Real.sin (d / EARTH_RADIUS_METERS / 2) := by
      rw [show start.latitude + degrees (d / EARTH_RADIUS_METERS) - start.latitude =
        degrees (d / EARTH_RADIUS_METERS) by ring, radians_degrees]
    rw [dist_core start _ (d / EARTH_RADIUS_METERS) ht0 htπ habs, hfin]
  · subst h
    unfold get_at_distance_from at hp
    rw [if_neg (by decide), if_pos rfl] at hp
    have hpe : p = ⟨start.longitude, start.latitude -
        degrees (d / EARTH_RADIUS_METERS)⟩ := by
      cases hp
      rfl
    subst hpe
    have habs : Real.sin (radians (start.latitude - degrees (d / EARTH_RADIUS_METERS) -
          start.latitude) / 2) *
        Real.sin (radians (start.latitude - degrees (d / EARTH_RADIUS_METERS) -
          start.latitude) / 2) =
        Real.sin (d / EARTH_RADIUS_METERS / 2) * Real.sin (d / EARTH_RADIUS_METERS / 2) := by
      rw [show start.latitude - degrees (d / EARTH_RADIUS_METERS) - start.latitude =
        -(degrees (d / EARTH_RADIUS_METERS)) by ring, radians_neg, radians_degrees,
        neg_div, Real.sin_neg]
      ring
    rw [dist_core start _ (d / EARTH_RADIUS_METERS) ht0 htπ habs, hfin]

theorem dist_wrap_north : get_distance_meters ⟨0, 0⟩ ⟨0, 360⟩ = 0 := by
  unfold get_distance_meters
  dsimp only
  rw [show radians (360 - 0) = 2 * Real.pi by unfold radians; ring]
  rw [show radians ((0:ℝ) - 0) = 0 by unfold radians; ring]
  rw [show (2 * Real.pi / 2) = Real.pi by ring]
  norm_num [Real.sin_pi, Real.sin_zero, Real.sqrt_zero, Real.sqrt_one, atan2_zero_one]

theorem dist_wrap_east : get_distance_meters ⟨0, 60⟩ ⟨360, 60⟩ = 0 := by
  unfold get_distance_meters
  dsimp only
  rw [show radians ((60:ℝ) - 60) = 0 by unfold radians; ring]
  rw [show radians (360 - 0) = 2 * Real.pi by unfold radians; ring]
  rw [show (2 * Real.pi / 2) = Real.pi by ring]
  norm_num [Real.sin_pi, Real.sin_zero, Real.sqrt_zero, Real.sqrt_one, atan2_zero_one]

theorem move_north_2pi :
    get_at_distance_from ⟨0, 0⟩ (2 * Real.pi * EARTH_RADIUS_METERS) "N" =
      .ok ⟨0, 360⟩ := by
  unfold get_at_distance_from
  rw [if_pos rfl]
  have : (0:ℝ) + degrees (2 * Real.pi * EARTH_RADIUS_METERS / EARTH_RADIUS_METERS) = 360 := by
    unfold degrees EARTH_RADIUS_METERS
    have hpi := Real.pi_ne_zero
    field_simp
    ring
  rw [show (⟨0, (0:ℝ) + degrees (2 * Real.pi * EARTH_RADIUS_METERS / EARTH_RADIUS_METERS)⟩ :
      EarthPoint) = ⟨0, 360⟩ by rw [this]]

theorem move_east_pi :
    get_at_distance_from ⟨0, 60⟩ (Real.pi * EARTH_RADIUS_METERS) "E" =
      .ok ⟨360, 60⟩ := by
  unfold get_at_distance_from
  rw [if_neg (by decide), if_neg (by decide), if_pos rfl]
  have hc : Real.cos (radians 60) = 1 / 2 := by
    rw [show radians (60:ℝ) = Real.pi / 3 by unfold radians; ring]
    exact Real.cos_pi_div_three
  have : (0:ℝ) + degrees (Real.pi * EARTH_RADIUS_METERS / EARTH_RADIUS_METERS) /
      Real.cos (radians 60) = 360 := by
    rw [hc]
    unfold degrees EARTH_RADIUS_METERS
    have hpi := Real.pi_ne_zero
    field_simp
    ring
  rw [show (⟨(0:ℝ) + degrees (Real.pi * EARTH_RADIUS_METERS / EARTH_RADIUS_METERS) /
      Real.cos (radians 60), (60:ℝ)⟩ : EarthPoint) = ⟨360, 60⟩ by rw [this]]

/-- C8.  `get_at_distance_from` returns the InvalidArgument error exactly
when the direction is not one of the four case-sensitive tokens `"N"`,
`"S"`, `"E"`, `"W"`; for those four tokens it succeeds. -/
theorem c8_invalid_argument_iff (start : EarthPoint) (d : ℝ) (dir : String) :
    get_at_distance_from start d dir = .error .invalidArgument ↔
      ¬(dir = "N" ∨ dir = "S" ∨ dir = "E" ∨ dir = "W") := by
  unfold get_at_distance_from
  split_ifs with h1 h2 h3 h4 <;> simp_all

theorem addPositionsEntity_frame (metadata : SimulationMetadata) (e : GridEntity)
    (hcond : ∀ pos, e.position = some pos →
      lookupRep keyX pos = none ∨ lookupRep keyY pos = none) :
    addPositionsEntity metadata e = e := by
  unfold addPositionsEntity
  rcases hpos : e.position with _ | pos
  · rfl
  · rcases hx : lookupRep keyX pos with _ | x
    · simp [hx]
    · rcases hy : lookupRep keyY pos with _ | y
      · simp [hx, hy]
      · rcases hcond pos hpos with hc | hc
        · rw [hc] at hx
          cases hx
        · rw [hc] at hy
          cases hy

theorem entityAt_add_positions (results : SimulationResults)
    (metadata : SimulationMetadata) (i j k : ℕ) (e : GridEntity)
    (he : entityAt results i j k = some e) :
    entityAt (add_positions results metadata) i j k =
      some (addPositionsEntity metadata e) := by
  unfold entityAt at he ⊢
  unfold add_positions
  dsimp only
  rcases h1 : results.replicates[i]? with _ | replicate
  · rw [h1] at he
    cases he
  · rw [h1] at he
    rw [Option.some_bind] at he
    rcases h2 : replicate.timesteps[j]? with _ | timestep
    · rw [h2] at he
      cases he
    · rw [h2] at he
      rw [Option.some_bind] at he
      rw [List.getElem?_map, h1]
      rw [Option.map_some', Option.some_bind]
      rw [List.getElem?_map, h2]
      rw [Option.map_some', Option.some_bind]
      rw [List.getElem?_map, he]
      rfl

/-! ## Claim theorems -/

/-- C1.  Chunk-split invariance: for every external line parser and every way
of splitting a complete, well-formed (no line raises), newline-terminated
stream into fragments — including mid-line splits and empty fragments —
feeding the fragments through `process_response` in order produces exactly
the same final reader state (completed-results sequence, observer
notification log, carry-over buffer, registry, count) as one call on the
whole stream, and the final carry-over buffer is empty. -/
theorem c1_chunk_split_invariance (per : List Char → Option Intermediate)
    (frags : List (List Char))
    (hwf : (ResponseReader.process_response per ResponseReader.init frags.flatten).2 = none)
    (hnl : (splitBuf frags.flatten).2 = []) :
    processChunks per ResponseReader.init frags =
      ResponseReader.process_response per ResponseReader.init frags.flatten ∧
    (ResponseReader.process_response per ResponseReader.init frags.flatten).1.buffer = [] := by
  refine ⟨processChunks_join per frags ResponseReader.init rfl hwf, ?_⟩
  rw [process_response_buffer]
  simpa using hnl

/-- Witness for C1 at a concrete two-fragment split of `"dr1\ndr1\ner1\n"`
cut in the middle of the second line. -/
theorem c1_chunk_split_invariance_witness :
    processChunks demoParse ResponseReader.init ["dr1\ndr".toList, "1\ner1\n".toList] =
      ResponseReader.process_response demoParse ResponseReader.init
        (["dr1\ndr".toList, "1\ner1\n".toList].flatten) ∧
    (ResponseReader.process_response demoParse ResponseReader.init
        (["dr1\ndr".toList, "1\ner1\n".toList].flatten)).1.buffer = [] :=
  c1_chunk_split_invariance demoParse ["dr1\ndr".toList, "1\ner1\n".toList]
    (by decide) (by decide)

/-- C2, counterexample.  As stated the claim quantifies over every `d ≥ 0`
and all four directions.  Two concrete refutations: moving north by the full
circumference `2πR` lands on latitude 360° which Haversine measures as
distance 0 (relative error 1); moving east by `πR` at latitude 60° wraps the
longitude by 360° which Haversine also measures as 0.  Both violate the
`1e-4` relative tolerance. -/
theorem c2_round_trip_counterexample :
    get_at_distance_from ⟨0, 0⟩ (2 * Real.pi * EARTH_RADIUS_METERS) "N" = .ok ⟨0, 360⟩ ∧
    get_distance_meters ⟨0, 0⟩ ⟨0, 360⟩ = 0 ∧
    ¬(|get_distance_meters ⟨0, 0⟩ ⟨0, 360⟩ - 2 * Real.pi * EARTH_RADIUS_METERS| ≤
      (1 / 10000) * (2 * Real.pi * EARTH_RADIUS_METERS)) ∧
    get_at_distance_from ⟨0, 60⟩ (Real.pi * EARTH_RADIUS_METERS) "E" = .ok ⟨360, 60⟩ ∧
    get_distance_meters ⟨0, 60⟩ ⟨360, 60⟩ = 0 ∧
    ¬(|get_distance_meters ⟨0, 60⟩ ⟨360, 60⟩ - Real.pi * EARTH_RADIUS_METERS| ≤
      (1 / 10000) * (Real.pi * EARTH_RADIUS_METERS)) := by
  have hpi := Real.pi_pos
  refine ⟨move_north_2pi, dist_wrap_north, ?_, move_east_pi, dist_wrap_east, ?_⟩
  · rw [dist_wrap_north]
    intro hcon
    rw [zero_sub, abs_neg,
      abs_of_pos (by unfold EARTH_RADIUS_METERS; positivity)] at hcon
    unfold EARTH_RADIUS_METERS at hcon
    nlinarith
  · rw [dist_wrap_east]
    intro hcon
    rw [zero_sub, abs_neg,
      abs_of_pos (by unfold EARTH_RADIUS_METERS; positivity)] at hcon
    unfold EARTH_RADIUS_METERS at hcon
    nlinarith

/-- Witness for the amended C2 at `start = (0°, 0°)`, `d = 0`, direction
`"N"`. -/
theorem c2_round_trip_witness :
    get_distance_meters ⟨0, 0⟩ ⟨0, 0 + degrees (0 / EARTH_RADIUS_METERS)⟩ = 0 :=
  c2_round_trip_north_south ⟨0, 0⟩ 0 le_rfl
    (by unfold EARTH_RADIUS_METERS; positivity) "N" (Or.inl rfl)
    ⟨0, 0 + degrees (0 / EARTH_RADIUS_METERS)⟩
    (by unfold get_at_distance_from; rw [if_pos rfl])

/-- C3.  If a fresh replicate id `r` appears among the complete lines of a
chunk as `N` datum lines followed by exactly one end line (in order, with no
other events for `r`), and the chunk processes without error, then the
completed-results sequence gains exactly the list of those `N` data in their
arrival order at the position corresponding to `r`'s end line, and the
notification log grows by one entry per completed replicate, each count
exactly one greater than the previous one (consecutive from the starting
count). -/
theorem c3_replicate_result (per : List Char → Option Intermediate)
    (st : ResponseReader) (text : List Char) (r : List Char) (ds : List OutputDatum)
    (hnew : lookupRep r st.reducer = none)
    (hev : eventsFor per r (splitBuf (st.buffer ++ text)).1 =
      ds.map Sum.inl ++ [Sum.inr ()])
    (hok : (ResponseReader.process_response per st text).2 = none) :
    (∃ pre post, (ResponseReader.process_response per st text).1.complete =
      st.complete ++ pre ++ ([ds] ++ post)) ∧
    (∃ m, (ResponseReader.process_response per st text).1.complete.length =
        st.complete.length + m ∧
      (ResponseReader.process_response per st text).1.completedReplicates =
        st.completedReplicates + m ∧
      (ResponseReader.process_response per st text).1.notes =
        st.notes ++ (List.range m).map (fun j => st.completedReplicates + j + 1)) := by
  have hre : ResponseReader.process_response per st text =
      processLines per { st with buffer := (splitBuf (st.buffer ++ text)).2 }
        (splitBuf (st.buffer ++ text)).1 := rfl
  rw [hre] at hok ⊢
  constructor
  · obtain ⟨pre, post, hc⟩ := c3_aux per r (splitBuf (st.buffer ++ text)).1
      { st with buffer := (splitBuf (st.buffer ++ text)).2 } [] ds
      (Or.inr ⟨hnew, rfl⟩) hev hok
    dsimp only at hc
    exact ⟨pre, post, by simpa using hc⟩
  · obtain ⟨m, h1, h2, h3⟩ := processLines_run per (splitBuf (st.buffer ++ text)).1
      { st with buffer := (splitBuf (st.buffer ++ text)).2 } hok
    dsimp only at h1 h2 h3
    exact ⟨m, h1, h2, h3⟩

/-- Witness for C3: replicate `"r1"` arrives as two datum lines and one end
line in the stream `"dr1\ndr1\ner1\n"` fed to a fresh reader. -/
theorem c3_replicate_result_witness :
    (∃ pre post,
      (ResponseReader.process_response demoParse ResponseReader.init
          "dr1\ndr1\ner1\n".toList).1.complete =
        ResponseReader.init.complete ++ pre ++
          ([[⟨"t".toList, []⟩, ⟨"t".toList, []⟩]] ++ post)) ∧
    (∃ m, (ResponseReader.process_response demoParse ResponseReader.init
          "dr1\ndr1\ner1\n".toList).1.complete.length =
        ResponseReader.init.complete.length + m ∧
      (ResponseReader.process_response demoParse ResponseReader.init
          "dr1\ndr1\ner1\n".toList).1.completedReplicates =
        ResponseReader.init.completedReplicates + m ∧
      (ResponseReader.process_response demoParse ResponseReader.init
          "dr1\ndr1\ner1\n".toList).1.notes =
        ResponseReader.init.notes ++ (List.range m).map
          (fun j => ResponseReader.init.completedReplicates + j + 1)) :=
  c3_replicate_result demoParse ResponseReader.init "dr1\ndr1\ner1\n".toList
    "r1".toList [⟨"t".toList, []⟩, ⟨"t".toList, []⟩] rfl (by decide) (by decide)

/-- C4.  Processing an end line whose replicate id has no open builder raises
ProtocolViolation (the Python `KeyError` from the registry lookup), and the
failing step leaves the previously completed-results sequence, the carry-over
buffer, the replicate registry, and the notification log unchanged — only the
completed counter has advanced (it is incremented before the lookup). -/
theorem c4_protocol_violation_atomic (per : List Char → Option Intermediate)
    (st : ResponseReader) (line rep : List Char)
    (hs : (pyStrip line).isEmpty = false)
    (hper : per (pyStrip line) = some (.endRep rep))
    (hmiss : lookupRep rep st.reducer = none) :
    (processLine per st line).2 = some .protocolViolation ∧
    (processLine per st line).1.complete = st.complete ∧
    (processLine per st line).1.buffer = st.buffer ∧
    (processLine per st line).1.reducer = st.reducer ∧
    (processLine per st line).1.notes = st.notes := by
  rw [processLine_end_missing per st line rep hs hper hmiss]
  exact ⟨rfl, rfl, rfl, rfl, rfl⟩

/-- Witness for C4: an end line `"er9"` for the unseen replicate `"r9"` on a
fresh reader. -/
theorem c4_protocol_violation_atomic_witness :
    (processLine demoParse ResponseReader.init "er9".toList).2 =
      some .protocolViolation ∧
    (processLine demoParse ResponseReader.init "er9".toList).1.complete =
      ResponseReader.init.complete ∧
    (processLine demoParse ResponseReader.init "er9".toList).1.buffer =
      ResponseReader.init.buffer ∧
    (processLine demoParse ResponseReader.init "er9".toList).1.reducer =
      ResponseReader.init.reducer ∧
    (processLine demoParse ResponseReader.init "er9".toList).1.notes =
      ResponseReader.init.notes :=
  c4_protocol_violation_atomic demoParse ResponseReader.init "er9".toList
    "r9".toList (by decide) (by decide) rfl

/-- C5, counterexample.  The claim says that after a failing line, every
valid terminated line that arrived after it is still processed (exactly
once) when the caller continues.  In the code an exception aborts the line
loop of the current call after the buffer has already been cut, so the valid
terminated datum line `"dr1"` arriving in the same chunk after the malformed
line `"x"` is silently dropped: the registry stays empty, and a continuing
caller feeding the end line `"er1"` then gets a ProtocolViolation instead of
a completed replicate. -/
theorem c5_failure_isolation_counterexample :
    (ResponseReader.process_response demoParse ResponseReader.init
        "x\ndr1\n".toList).2 = some ReaderErr.formatError ∧
    lookupRep "r1".toList
      (ResponseReader.process_response demoParse ResponseReader.init
        "x\ndr1\n".toList).1.reducer = none ∧
    (ResponseReader.process_response demoParse ResponseReader.init
        "x\ndr1\n".toList).1.complete = [] ∧
    (ResponseReader.process_response demoParse
        (ResponseReader.process_response demoParse ResponseReader.init
          "x\ndr1\n".toList).1 "er1\n".toList).2 =
      some ReaderErr.protocolViolation := by
  refine ⟨by decide, by decide, by decide, by decide⟩

/-- C5, amended.  A failure is isolated to the call that raised it, not to
the line: when line `bad` of a chunk raises, the lines before `bad` have been
processed exactly once, the carry-over buffer holds exactly the unterminated
trailing text (so the parser is resumable and lines arriving in later chunks
are processed normally), but the terminated lines after `bad` inside the same
chunk are dropped. -/
theorem c5_failure_isolation_amended (per : List Char → Option Intermediate)
    (st : ResponseReader) (text : List Char) (xs ys : List (List Char))
    (bad t : List Char)
    (hsp : splitBuf (st.buffer ++ text) = (xs ++ bad :: ys, t))
    (hxs : (processLines per { st with buffer := t } xs).2 = none)
    (hbad : (processLine per (processLines per { st with buffer := t } xs).1
      bad).2.isSome) :
    ResponseReader.process_response per st text =
      processLine per (processLines per { st with buffer := t } xs).1 bad ∧
    (ResponseReader.process_response per st text).1.buffer = t := by
  have hre : ResponseReader.process_response per st text =
      processLines per { st with buffer := (splitBuf (st.buffer ++ text)).2 }
        (splitBuf (st.buffer ++ text)).1 := rfl
  rw [hre, hsp]
  dsimp only
  rw [processLines_append]
  rcases hx : processLines per { st with buffer := t } xs with ⟨st1, e1⟩
  rw [hx] at hxs hbad
  dsimp only at hxs
  subst hxs
  dsimp only
  unfold processLines
  rcases hb : processLine per st1 bad with ⟨st2, e2⟩
  rw [hb] at hbad
  rcases e2 with _ | e2
  · simp at hbad
  · refine ⟨rfl, ?_⟩
    have h2 : st2.buffer = st1.buffer := by
      have := processLine_buffer per st1 bad
      rw [hb] at this
      exact this
    have h1 : st1.buffer = t := by
      have := processLines_buffer per xs { st with buffer := t }
      rw [hx] at this
      exact this
    simpa [h2] using h1

/-- Witness for the amended C5, at the chunk `"x\ndr1\n"` whose first line is
malformed. -/
theorem c5_failure_isolation_amended_witness :
    ResponseReader.process_response demoParse ResponseReader.init
        "x\ndr1\n".toList =
      processLine demoParse
        (processLines demoParse
          { ResponseReader.init with buffer := [] } []).1 "x".toList ∧
    (ResponseReader.process_response demoParse ResponseReader.init
        "x\ndr1\n".toList).1.buffer = [] :=
  c5_failure_isolation_amended demoParse ResponseReader.init "x\ndr1\n".toList
    [] ["dr1".toList] "x".toList [] (by decide) rfl (by decide)

/-- C6.  `parse_start_end_string` assigns longitude and latitude
order-independently: the latitude-first example and its longitude-first
permutation both yield longitude −118.672 and latitude 36.519 (with unit
"degrees"); the assignment is decided by whether the third space-token of
the first comma-part contains the substring "latitude"; and a FormatError is
raised when the comma split does not yield exactly two parts or either part
has fewer than three space-separated tokens. -/
theorem c6_start_end_parsing :
    parse_start_end_string
        "36.519 degrees latitude, -118.672 degrees longitude".toList =
      .ok ⟨⟨-(118672 / 1000), "degrees".toList⟩, ⟨36519 / 1000, "degrees".toList⟩⟩ ∧
    parse_start_end_string
        "-118.672 degrees longitude, 36.519 degrees latitude".toList =
      .ok ⟨⟨-(118672 / 1000), "degrees".toList⟩, ⟨36519 / 1000, "degrees".toList⟩⟩ ∧
    (∀ t, (pySplitCh ',' (pyStrip t)).length ≠ 2 →
      parse_start_end_string t = .error .mk) ∧
    (∀ t p1 p2, pySplitCh ',' (pyStrip t) = [p1, p2] →
      (pySplitCh ' ' (pyStrip p1)).length < 3 ∨
        (pySplitCh ' ' (pyStrip p2)).length < 3 →
      parse_start_end_string t = .error .mk) ∧
    (∀ t p1 p2 f0 f1 f2 fr s0 s1 s2 sr v1 v2,
      pySplitCh ',' (pyStrip t) = [p1, p2] →
      pySplitCh ' ' (pyStrip p1) = f0 :: f1 :: f2 :: fr →
      pySplitCh ' ' (pyStrip p2) = s0 :: s1 :: s2 :: sr →
      pyFloat f0 = some v1 → pyFloat s0 = some v2 →
      parse_start_end_string t =
        if pyContains "latitude".toList f2 then .ok ⟨⟨v2, s1⟩, ⟨v1, f1⟩⟩
        else .ok ⟨⟨v1, f1⟩, ⟨v2, s1⟩⟩) := by
  refine ⟨?_, ?_, ?_, ?_, ?_⟩
  · have h1 : pySplitCh ','
        (pyStrip "36.519 degrees latitude, -118.672 degrees longitude".toList) =
        ["36.519 degrees latitude".toList, " -118.672 degrees longitude".toList] := by
      decide
    have h2 : pySplitCh ' ' (pyStrip "36.519 degrees latitude".toList) =
        ["36.519".toList, "degrees".toList, "latitude".toList] := by decide
    have h3 : pySplitCh ' ' (pyStrip " -118.672 degrees longitude".toList) =
        ["-118.672".toList, "degrees".toList, "longitude".toList] := by decide
    have h4 : pyContains "latitude".toList "latitude".toList = true := by decide
    have h5 : pyFloatParts "36.519".toList = some (false, 36, 519, 3) := by decide
    have h6 : pyFloatParts "-118.672".toList = some (true, 118, 672, 3) := by decide
    simp only [parse_start_end_string, h1, h2, h3, h4, pyFloat, h5, h6, decToRat,
      if_true]
    norm_num
  · have h1 : pySplitCh ','
        (pyStrip "-118.672 degrees longitude, 36.519 degrees latitude".toList) =
        ["-118.672 degrees longitude".toList, " 36.519 degrees latitude".toList] := by
      decide
    have h2 : pySplitCh ' ' (pyStrip "-118.672 degrees longitude".toList) =
        ["-118.672".toList, "degrees".toList, "longitude".toList] := by decide
    have h3 : pySplitCh ' ' (pyStrip " 36.519 degrees latitude".toList) =
        ["36.519".toList, "degrees".toList, "latitude".toList] := by decide
    have h4 : pyContains "latitude".toList "longitude".toList = false := by decide
    have h5 : pyFloatParts "36.519".toList = some (false, 36, 519, 3) := by decide
    have h6 : pyFloatParts "-118.672".toList = some (true, 118, 672, 3) := by decide
    simp only [parse_start_end_string, h1, h2, h3, h4, pyFloat, h5, h6, decToRat,
      Bool.false_eq_true, if_false]
    norm_num
  · intro t hlen
    unfold parse_start_end_string
    rcases hp : pySplitCh ',' (pyStrip t) with _ | ⟨p1, _ | ⟨p2, _ | ⟨p3, r3⟩⟩⟩
    · rfl
    · rfl
    · exact absurd (by rw [hp]; rfl) hlen
    · rfl
  · intro t p1 p2 hp hlen
    unfold parse_start_end_string
    rw [hp]
    dsimp only
    rcases hf : pySplitCh ' ' (pyStrip p1) with _ | ⟨f0, _ | ⟨f1, _ | ⟨f2, fr⟩⟩⟩ <;>
      rcases hs : pySplitCh ' ' (pyStrip p2) with _ | ⟨s0, _ | ⟨s1, _ | ⟨s2, sr⟩⟩⟩ <;>
      first
        | rfl
        | (exfalso
           rcases hlen with h | h <;>
             simp only [hf, hs, List.length_cons, List.length_nil] at h <;> omega)
  · intro t p1 p2 f0 f1 f2 fr s0 s1 s2 sr v1 v2 hp hf hs hv1 hv2
    unfold parse_start_end_string
    rw [hp]
    dsimp only
    rw [hf, hs]
    dsimp only
    by_cases hc : pyContains "latitude".toList f2
    · simp only [hc, if_true, hv1, hv2]
    · simp only [hc, Bool.false_eq_true, if_false, hv1, hv2]

/-- Witness for C6 at the concrete input `"nocommas"`, whose comma split has
one part. -/
theorem c6_start_end_parsing_witness :
    parse_start_end_string "nocommas".toList = .error .mk :=
  c6_start_end_parsing.2.2.1 "nocommas".toList (by decide)

/-- C7.  `parse_engine_value_string` splits its (stripped) input on the first
space into a numeric token and a unit token: `"30 m"` parses to value 30 and
units `"m"`; anything that does not split into exactly two tokens (such as
`"30"`) or whose numeric token is not a valid floating-point literal raises
a FormatError. -/
theorem c7_engine_value_parsing :
    parse_engine_value_string "30 m".toList = .ok ⟨30, "m".toList⟩ ∧
    parse_engine_value_string "30".toList = .error .mk ∧
    (∀ t, (pySplit1 ' ' (pyStrip t)).length ≠ 2 →
      parse_engine_value_string t = .error .mk) ∧
    (∀ t a b, pySplit1 ' ' (pyStrip t) = [a, b] → pyFloat a = none →
      parse_engine_value_string t = .error .mk) := by
  refine ⟨?_, ?_, ?_, ?_⟩
  · have h1 : pySplit1 ' ' (pyStrip "30 m".toList) = ["30".toList, "m".toList] := by
      decide
    have h2 : pyFloatParts "30".toList = some (false, 30, 0, 0) := by decide
    simp only [parse_engine_value_string, h1, pyFloat, h2, decToRat]
    norm_num
  · have h1 : pySplit1 ' ' (pyStrip "30".toList) = ["30".toList] := by decide
    simp only [parse_engine_value_string, h1]
  · intro t hlen
    unfold parse_engine_value_string
    rcases hp : pySplit1 ' ' (pyStrip t) with _ | ⟨a, _ | ⟨b, _ | ⟨c, r3⟩⟩⟩
    · rfl
    · rfl
    · exact absurd (by rw [hp]; rfl) hlen
    · rfl
  · intro t a b hp hfl
    unfold parse_engine_value_string
    rw [hp]
    dsimp only
    rw [hfl]

/-- Witness for C7 at the concrete input `"30"`, whose first-space split has
one token. -/
theorem c7_engine_value_parsing_witness :
    parse_engine_value_string "30".toList = .error .mk :=
  c7_engine_value_parsing.2.2.1 "30".toList (by decide)

/-- C9.  Frame property of batch geocoding: an entity that does not carry a
`position` mapping with both an `x` and a `y` key is left completely
unmodified by `add_positions` — the result set returned by the call holds
the very same entity at the same (replicate, timestep, entity) position. -/
theorem c9_add_positions_frame (results : SimulationResults)
    (metadata : SimulationMetadata) (i j k : ℕ) (e : GridEntity)
    (he : entityAt results i j k = some e)
    (hcond : ∀ pos, e.position = some pos →
      lookupRep keyX pos = none ∨ lookupRep keyY pos = none) :
    entityAt (add_positions results metadata) i j k = some e := by
  rw [entityAt_add_positions results metadata i j k e he,
    addPositionsEntity_frame metadata e hcond]

/-- Witness for C9: a one-entity result set whose entity's `position`
mapping has a `y` key but no `x` key. -/
theorem c9_add_positions_frame_witness :
    entityAt (add_positions demoResults demoMetadata) 0 0 0 = some demoEntity :=
  c9_add_positions_frame demoResults demoMetadata 0 0 0 demoEntity rfl
    (fun pos hpos => by
      have hpos' : some [(keyY, (5 : ℝ))] = some pos := hpos
      cases hpos'
      exact Or.inl rfl)

/-- C10 (implicit).  The completed counter is incremented for every end line
before the builder lookup, so a failing end line advances it while the
completed-results list, registry, buffer and notification log stay put; and
from any state whose counter exceeds the completed-results length by `g`,
error-free processing preserves the gap `g`, every new notification carries
`count-before + j + 1`, and when `g ≥ 1` each such notification is strictly
greater than the length of the completed-results list at the moment the
observer fires.  The invariant "observer count = number of completed
results" therefore holds only while no end line has ever failed. -/
theorem c10_counter_gap :
    (∀ (per : List Char → Option Intermediate) (st : ResponseReader)
        (line rep : List Char),
      (pyStrip line).isEmpty = false →
      per (pyStrip line) = some (.endRep rep) →
      lookupRep rep st.reducer = none →
      (processLine per st line).1.completedReplicates = st.completedReplicates + 1 ∧
      (processLine per st line).2 = some .protocolViolation ∧
      (processLine per st line).1.complete = st.complete ∧
      (processLine per st line).1.notes = st.notes) ∧
    (∀ (per : List Char → Option Intermediate) (ls : List (List Char))
        (st : ResponseReader) (g : ℕ),
      st.completedReplicates = st.complete.length + g →
      (processLines per st ls).2 = none →
      ∃ m, (processLines per st ls).1.complete.length = st.complete.length + m ∧
        (processLines per st ls).1.completedReplicates =
          (processLines per st ls).1.complete.length + g ∧
        (processLines per st ls).1.notes =
          st.notes ++ (List.range m).map (fun j => st.completedReplicates + j + 1) ∧
        (1 ≤ g → ∀ j < m, st.complete.length + (j + 1) <
          st.completedReplicates + j + 1)) := by
  constructor
  · intro per st line rep hs hper hmiss
    rw [processLine_end_missing per st line rep hs hper hmiss]
    exact ⟨rfl, rfl, rfl, rfl⟩
  · intro per ls st g hg hok
    obtain ⟨m, h1, h2, h3⟩ := processLines_run per ls st hok
    refine ⟨m, h1, ?_, h3, ?_⟩
    · omega
    · intro hg1 j hj
      omega

/-- Witness for C10: the failing end line `"er9"` on a fresh reader, and an
error-free run (one datum, one end for the open replicate `"r1"`) from a
state whose counter already exceeds its completed-results length by one. -/
theorem c10_counter_gap_witness :
    ((processLine demoParse ResponseReader.init "er9".toList).1.completedReplicates =
        ResponseReader.init.completedReplicates + 1 ∧
      (processLine demoParse ResponseReader.init "er9".toList).2 =
        some .protocolViolation ∧
      (processLine demoParse ResponseReader.init "er9".toList).1.complete =
        ResponseReader.init.complete ∧
      (processLine demoParse ResponseReader.init "er9".toList).1.notes =
        ResponseReader.init.notes) ∧
    (∃ m, (processLines demoParse demoGapState
          ["dr1".toList, "er1".toList]).1.complete.length =
        demoGapState.complete.length + m ∧
      (processLines demoParse demoGapState
          ["dr1".toList, "er1".toList]).1.completedReplicates =
        (processLines demoParse demoGapState
          ["dr1".toList, "er1".toList]).1.complete.length + 1 ∧
      (processLines demoParse demoGapState
          ["dr1".toList, "er1".toList]).1.notes =
        demoGapState.notes ++ (List.range m).map
          (fun j => demoGapState.completedReplicates + j + 1) ∧
      (1 ≤ 1 → ∀ j < m, demoGapState.complete.length + (j + 1) <
        demoGapState.completedReplicates + j + 1)) :=
  ⟨c10_counter_gap.1 demoParse ResponseReader.init "er9".toList "r9".toList
      (by decide) (by decide) rfl,
    c10_counter_gap.2 demoParse ["dr1".toList, "er1".toList] demoGapState 1
      rfl (by decide)⟩
